import Mathlib

/-!
Verification of the PersonaPlex front-desk console (frontend orchestration
layer).  The definitions below are shallow embeddings of the TypeScript
source:

  * handleTranscriptStep  -- the updater passed to setTranscript in
    App.tsx (handleTranscript, lines 55 to 76);
  * handleExtraction      -- the updater for the extracted-fields state
    (App.tsx, lines 78 to 81);
  * computeMissing        -- the missing-fields effect (App.tsx, lines 116
    to 120), which uses JavaScript truthiness on each required field;
  * canConfirm and handleConfirm -- ActionButtons.tsx line 28 and App.tsx
    lines 132 to 136;
  * stopRecordingEff      -- stopRecording in useAudioStream.ts, lines 242
    to 281, modelled as a state transformer together with the list of
    teardown effects it performs;
  * audioLevelOf          -- updateAudioLevel in useAudioStream.ts, lines
    222 to 231;
  * handleSelectSlot      -- App.tsx lines 154 to 161;
  * encodePcmSample and decodePcmSample -- the PCM conversions in
    useAudioStream.ts (the audio-process callback, lines 201 to 216, and
    playAudioBlob, lines 132 to 157).
-/

namespace PersonaPlex

/-- Speaker of a transcript entry, user or agent, from types.ts. -/
inductive Speaker
  | user
  | agent
deriving DecidableEq, Repr

/-- TranscriptEntry from types.ts (the optional confidence field is never
read by the code under verification and is omitted). -/
structure TranscriptEntry where
  speaker : Speaker
  text : String
  timestamp : String
deriving DecidableEq, Repr

/-- One step of the transcript aggregation: the updater function passed to
setTranscript in handleTranscript (App.tsx lines 55 to 76).  If the list is
non-empty and its last entry has the same speaker as the incoming fragment,
the fragment text is appended to that entry and the timestamp replaced;
otherwise the fragment is appended as a new entry. -/
def handleTranscriptStep (prev : List TranscriptEntry) (entry : TranscriptEntry) :
    List TranscriptEntry :=
  match prev.getLast? with
  | some lastEntry =>
      if lastEntry.speaker = entry.speaker then
        prev.dropLast ++
          [{ lastEntry with
              text := lastEntry.text ++ entry.text,
              timestamp := entry.timestamp }]
      else
        prev ++ [entry]
  | none => prev ++ [entry]

/-- Concatenation of the texts of a fragment sequence, in order. -/
def textConcat (frags : List TranscriptEntry) : String :=
  frags.foldl (fun acc f => acc ++ f.text) ""

/-- Helper: the single entry produced by merging a run of same-speaker
fragments into an initial entry, mirroring the merge branch of
handleTranscriptStep. -/
def mergeAll (e0 : TranscriptEntry) : List TranscriptEntry → TranscriptEntry
  | [] => e0
  | f :: fs => mergeAll ⟨e0.speaker, e0.text ++ f.text, f.timestamp⟩ fs

/-- Whether a string is empty after trimming whitespace, i.e. every
character is whitespace.  The code under src contains no trimming at all;
this renders the condition the specification words as "empty text after
trimming". -/
def isBlank (s : String) : Bool :=
  s.data.all (fun c => c.isWhitespace)

/-- AreaType from types.ts; the TypeScript literal for the private dining
area is a Lean keyword and is rendered privateRoom. -/
inductive AreaType
  | indoor
  | patio
  | bar
  | privateRoom
deriving DecidableEq, Repr

/-- IntentType from types.ts. -/
inductive IntentType
  | reserve
  | modify
  | cancel
  | faq
  | waitlist
deriving DecidableEq, Repr

/-- ExtractedFields from types.ts: every field nullable.  party_size is a
JavaScript number; reservations only ever use integral values, so it is
embedded as Int. -/
structure ExtractedFields where
  guest_name : Option String
  phone : Option String
  party_size : Option Int
  date_time : Option String
  area_pref : Option AreaType
  notes : Option String
  intent : Option IntentType
  confirmation_code : Option String
deriving DecidableEq, Repr

/-- The extraction update handler handleExtraction (App.tsx lines 78 to
81): setExtracted replaces the whole snapshot with the incoming data,
ignoring the previous state. -/
def handleExtraction (_prev data : ExtractedFields) : ExtractedFields :=
  data

/-- The required field names, from the missing-fields effect (App.tsx line
117). -/
def requiredFields : List String :=
  ["guest_name", "phone", "party_size", "date_time"]

/-- JavaScript truthiness of a nullable string: null and the empty string
are falsy. -/
def truthyStr : Option String → Bool
  | none => false
  | some s => decide (s ≠ "")

/-- JavaScript truthiness of a nullable number: null and zero are falsy. -/
def truthyNum : Option Int → Bool
  | none => false
  | some n => decide (n ≠ 0)

/-- Truthiness of the field selected by name, as read by the filter
predicate of the missing-fields effect for the four required names. -/
def fieldTruthy (e : ExtractedFields) : String → Bool
  | "guest_name" => truthyStr e.guest_name
  | "phone" => truthyStr e.phone
  | "party_size" => truthyNum e.party_size
  | "date_time" => truthyStr e.date_time
  | _ => false

/-- The missing-fields computation of the effect in App.tsx lines 116 to
120: filter the required names by falsiness of the corresponding field. -/
def computeMissing (e : ExtractedFields) : List String :=
  requiredFields.filter (fun f => ! fieldTruthy e f)

/-- Whether the field selected by name is non-null. -/
def fieldNonNull (e : ExtractedFields) : String → Bool
  | "guest_name" => e.guest_name.isSome
  | "phone" => e.phone.isSome
  | "party_size" => e.party_size.isSome
  | "date_time" => e.date_time.isSome
  | _ => false

/-- The missing-fields set as the specification words it: the required
fields minus those currently non-null in the snapshot.  Kept separate from
computeMissing (which embeds the code) so the two can be compared. -/
def specMissing (e : ExtractedFields) : List String :=
  requiredFields.filter (fun f => ! fieldNonNull e f)

/-- canConfirm from ActionButtons.tsx line 28: the missing-fields list has
length zero and the intent equals reserve. -/
def canConfirm (fields : ExtractedFields) (missingFields : List String) : Bool :=
  decide (missingFields.length = 0) && decide (fields.intent = some IntentType.reserve)

/-- handleConfirm from App.tsx lines 132 to 136: unconditionally sets the
conversation state to complete. -/
def handleConfirm (_state : String) : String :=
  "complete"

/-- TimeSlot from types.ts. -/
structure TimeSlot where
  time : String
  area : AreaType
  tables_available : Int
deriving DecidableEq, Repr

/-- handleSelectSlot from App.tsx lines 154 to 161: stores the selected
slot and spreads the previous extracted snapshot, overriding only
date_time and area_pref.  Returns the new selectedSlot state together with
the new extracted snapshot. -/
def handleSelectSlot (prev : ExtractedFields) (slot : TimeSlot) :
    Option TimeSlot × ExtractedFields :=
  (some slot,
    { prev with
        date_time := some slot.time,
        area_pref := some slot.area })

/-- The mutable state touched by stopRecording in useAudioStream.ts: the
five refs (held or null), the three state values set at the end, and the
speaking flags reset through onSpeakingChange. -/
structure AudioStreamState where
  animationFrame : Option Nat
  processor : Option Unit
  audioContext : Option Unit
  mediaStream : Option Unit
  ws : Option Unit
  isConnected : Bool
  isRecording : Bool
  audioLevel : ℚ
  user_speaking : Bool
  agent_speaking : Bool
deriving DecidableEq, Repr

/-- The externally visible teardown effects stopRecording can perform, each
guarded by the corresponding ref being non-null. -/
inductive TeardownAction
  | cancelFrame
  | disconnectProcessor
  | closeAudioContext
  | stopMediaTracks
  | closeWebSocket
deriving DecidableEq, Repr

/-- stopRecording from useAudioStream.ts lines 242 to 281: cancels the
animation frame (lines 245 to 247, WITHOUT nulling animationFrameRef, so
the stale frame id is kept), disconnects and nulls the processor, closes
and nulls the audio context, stops and nulls the media stream tracks,
closes and nulls the WebSocket -- each only when the ref is non-null --
then resets the speaking flags and sets isConnected and isRecording to
false and audioLevel to zero.  The returned list records which teardown
effects ran. -/
def stopRecordingEff (s : AudioStreamState) : AudioStreamState × List TeardownAction :=
  (⟨s.animationFrame, none, none, none, none, false, false, 0, false, false⟩,
    (if s.animationFrame.isSome then [TeardownAction.cancelFrame] else []) ++
    (if s.processor.isSome then [TeardownAction.disconnectProcessor] else []) ++
    (if s.audioContext.isSome then [TeardownAction.closeAudioContext] else []) ++
    (if s.mediaStream.isSome then [TeardownAction.stopMediaTracks] else []) ++
    (if s.ws.isSome then [TeardownAction.closeWebSocket] else []))

/-- updateAudioLevel from useAudioStream.ts lines 222 to 231: the mean of
the frequency-bin byte values divided by 255.  The byte values are the
entries of getByteFrequencyData, each in the range 0 to 255. -/
def audioLevelOf (dataArray : List ℕ) : ℚ :=
  ((dataArray.foldl (fun a b => a + b) 0 : ℕ) : ℚ) / (dataArray.length : ℚ) / 255

/-- The outbound PCM encoding from the audio-process callback
(useAudioStream.ts line 207): clamp the scaled sample to the signed 16-bit
range. -/
def encodePcmSample (x : ℚ) : ℚ :=
  max (-32768) (min 32767 (x * 32768))

/-- The inbound PCM decoding from playAudioBlob (useAudioStream.ts line
142): divide the 16-bit sample by 32768. -/
def decodePcmSample (s : ℤ) : ℚ :=
  (s : ℚ) / 32768

/-- A snapshot whose party_size is zero and all other fields null; zero is
non-null but falsy in JavaScript. -/
def sampleZeroParty : ExtractedFields :=
  ⟨none, none, some 0, none, none, none, none, none⟩

/-- A snapshot with only guest_name set. -/
def sampleAlice : ExtractedFields :=
  ⟨some "Alice", none, none, none, none, none, none, none⟩

/-- The all-null snapshot (the initial extracted state in App.tsx). -/
def sampleNull : ExtractedFields :=
  ⟨none, none, none, none, none, none, none, none⟩

/-- A snapshot with a short non-empty guest_name, used to instantiate the
amended missing-fields theorem. -/
def sampleAl : ExtractedFields :=
  ⟨some "Al", none, none, none, none, none, none, none⟩

/-- A snapshot with all four required fields set and intent reserve. -/
def sampleComplete : ExtractedFields :=
  ⟨some "Bob", some "555-0100", some 4, some "2026-10-11T19:00", none, none,
    some IntentType.reserve, none⟩

/-- A two-fragment run from the same speaker. -/
def sampleFrags : List TranscriptEntry :=
  [⟨Speaker.user, "Hello ", "t1"⟩, ⟨Speaker.user, "world", "t2"⟩]

lemma foldl_step_run (fs : List TranscriptEntry) : ∀ (e0 : TranscriptEntry),
    (∀ f ∈ fs, f.speaker = e0.speaker) →
    fs.foldl handleTranscriptStep [e0] = [mergeAll e0 fs] := by
  induction fs with
  | nil => intro e0 _; simp [mergeAll]
  | cons f fs ih =>
      intro e0 h
      have hf : f.speaker = e0.speaker := h f (List.mem_cons_self f fs)
      have hstep : handleTranscriptStep [e0] f
          = [⟨e0.speaker, e0.text ++ f.text, f.timestamp⟩] := by
        simp [handleTranscriptStep, hf]
      rw [List.foldl_cons, hstep, mergeAll]
      exact ih ⟨e0.speaker, e0.text ++ f.text, f.timestamp⟩
        (fun g hg => h g (List.mem_cons_of_mem f hg))

lemma mergeAll_speaker (fs : List TranscriptEntry) : ∀ e0,
    (mergeAll e0 fs).speaker = e0.speaker := by
  induction fs with
  | nil => intro e0; rfl
  | cons f fs ih => intro e0; rw [mergeAll]; exact ih _

lemma mergeAll_text (fs : List TranscriptEntry) : ∀ e0,
    (mergeAll e0 fs).text = fs.foldl (fun acc f => acc ++ f.text) e0.text := by
  induction fs with
  | nil => intro e0; rfl
  | cons f fs ih => intro e0; rw [mergeAll, List.foldl_cons]; exact ih _

lemma truthyStr_eq_isSome {o : Option String} (h : o ≠ some "") :
    truthyStr o = o.isSome := by
  cases o with
  | none => rfl
  | some s =>
      have hs : s ≠ "" := fun he => h (by rw [he])
      simp [truthyStr, hs]

lemma truthyNum_eq_isSome {o : Option Int} (h : o ≠ some 0) :
    truthyNum o = o.isSome := by
  cases o with
  | none => rfl
  | some n =>
      have hn : n ≠ 0 := fun he => h (by rw [he])
      simp [truthyNum, hn]

lemma truthyStr_ne_none {o : Option String} (h : truthyStr o = true) : o ≠ none := by
  cases o with
  | none => simp [truthyStr] at h
  | some s => simp

lemma truthyNum_ne_none {o : Option Int} (h : truthyNum o = true) : o ≠ none := by
  cases o with
  | none => simp [truthyNum] at h
  | some n => simp

lemma foldl_add_le (l : List ℕ) : ∀ acc : ℕ, (∀ b ∈ l, b ≤ 255) →
    l.foldl (fun a b => a + b) acc ≤ acc + 255 * l.length := by
  induction l with
  | nil => intro acc _; simp
  | cons x xs ih =>
      intro acc h
      rw [List.foldl_cons]
      have hx : x ≤ 255 := h x (List.mem_cons_self x xs)
      have hrec := ih (acc + x) (fun b hb => h b (List.mem_cons_of_mem x hb))
      calc (xs.foldl (fun a b => a + b) (acc + x))
          ≤ acc + x + 255 * xs.length := hrec
        _ ≤ acc + 255 * (x :: xs).length := by
            simp [List.length_cons]
            ring_nf
            omega

/-- C1: if the incoming fragment has the same speaker as the last transcript
entry, handleTranscriptStep appends the fragment text to that entry and
replaces its timestamp, producing no new entry (the length is unchanged);
if the speaker differs or the list is empty, a new entry is appended.
Consequently a non-empty sequence of fragments all from one speaker,
aggregated from the empty transcript, yields exactly one merged entry
carrying that speaker and the concatenation of all fragment texts. -/
theorem transcript_merge_same_speaker (prev : List TranscriptEntry)
    (entry lastE : TranscriptEntry)
    (frags : List TranscriptEntry) (s : Speaker)
    (h1 : frags ≠ []) (h2 : ∀ f ∈ frags, f.speaker = s) :
    (prev.getLast? = some lastE → lastE.speaker = entry.speaker →
      handleTranscriptStep prev entry
        = prev.dropLast ++
            [{ lastE with
                text := lastE.text ++ entry.text,
                timestamp := entry.timestamp }]
      ∧ (handleTranscriptStep prev entry).length = prev.length) ∧
    ((∀ l, prev.getLast? = some l → l.speaker ≠ entry.speaker) →
      handleTranscriptStep prev entry = prev ++ [entry]) ∧
    (∃ m : TranscriptEntry, frags.foldl handleTranscriptStep [] = [m] ∧
      m.speaker = s ∧ m.text = textConcat frags) := by
  refine ⟨?_, ?_, ?_⟩
  · intro hlast hsp
    have hne : prev ≠ [] := by
      intro hnil; rw [hnil] at hlast; simp at hlast
    have heq : handleTranscriptStep prev entry
        = prev.dropLast ++
            [{ lastE with
                text := lastE.text ++ entry.text,
                timestamp := entry.timestamp }] := by
      unfold handleTranscriptStep
      rw [hlast]
      simp [hsp]
    refine ⟨heq, ?_⟩
    rw [heq]
    simp
    have hpos : 0 < prev.length := List.length_pos.mpr hne
    omega
  · intro hdiff
    unfold handleTranscriptStep
    cases hl : prev.getLast? with
    | none => rfl
    | some l => simp [hdiff l hl]
  · obtain ⟨e0, fs, rfl⟩ := List.exists_cons_of_ne_nil h1
    have he0 : e0.speaker = s := h2 e0 (List.mem_cons_self e0 fs)
    have hfs : ∀ f ∈ fs, f.speaker = e0.speaker := by
      intro f hf; rw [h2 f (List.mem_cons_of_mem e0 hf), he0]
    refine ⟨mergeAll e0 fs, ?_, ?_, ?_⟩
    · rw [List.foldl_cons]
      have hfirst : handleTranscriptStep [] e0 = [e0] := rfl
      rw [hfirst]
      exact foldl_step_run fs e0 hfs
    · rw [mergeAll_speaker, he0]
    · rw [mergeAll_text, textConcat, List.foldl_cons]
      have hnil : ("" : String) ++ e0.text = e0.text := by simp
      rw [hnil]

/-- C1 witness: aggregating two user fragments from the empty transcript
leaves exactly one entry. -/
theorem transcript_merge_same_speaker_witness :
    (sampleFrags.foldl handleTranscriptStep []).length = 1 := by
  obtain ⟨-, -, m, hm, -, -⟩ :=
    transcript_merge_same_speaker [] ⟨Speaker.user, "", ""⟩ ⟨Speaker.user, "", ""⟩
      sampleFrags Speaker.user (by decide) (by decide)
  rw [hm]
  rfl

/-- C2 counterexample: for the snapshot whose party_size is zero, the field
is non-null yet the code lists it as missing, so the computed list differs
from the set of required fields minus the non-null ones. -/
theorem missing_fields_nonnull_counterexample :
    sampleZeroParty.party_size ≠ none ∧
    "party_size" ∈ computeMissing sampleZeroParty ∧
    computeMissing sampleZeroParty ≠ specMissing sampleZeroParty := by
  decide

/-- C2 amended: the effect recomputes the missing-fields list from the
snapshot as the required names whose field is falsy; whenever every
non-null required field is also truthy (non-empty string, non-zero number),
this coincides with the required fields minus the non-null ones, and
membership is exactly characterized by the field being null. -/
theorem missing_fields_truthy_characterization (e : ExtractedFields)
    (hg : e.guest_name ≠ some "") (hp : e.phone ≠ some "")
    (hn : e.party_size ≠ some 0) (hd : e.date_time ≠ some "") :
    computeMissing e = specMissing e ∧
    (∀ f, f ∈ computeMissing e ↔ (f ∈ requiredFields ∧ fieldNonNull e f = false)) := by
  have key : ∀ f ∈ requiredFields, fieldTruthy e f = fieldNonNull e f := by
    intro f hf
    simp [requiredFields] at hf
    rcases hf with rfl | rfl | rfl | rfl
    · exact truthyStr_eq_isSome hg
    · exact truthyStr_eq_isSome hp
    · exact truthyNum_eq_isSome hn
    · exact truthyStr_eq_isSome hd
  have heq : computeMissing e = specMissing e := by
    unfold computeMissing specMissing
    exact List.filter_congr (fun f hf => by rw [key f hf])
  refine ⟨heq, ?_⟩
  intro f
  rw [heq]
  unfold specMissing
  rw [List.mem_filter]
  simp

/-- C2 witness: for a snapshot with a non-empty guest_name and the other
required fields null, the computed missing list agrees with the
specification reading. -/
theorem missing_fields_truthy_witness :
    computeMissing sampleAl = specMissing sampleAl :=
  (missing_fields_truthy_characterization sampleAl
    (by decide) (by decide) (by decide) (by decide)).1

/-- C3 counterexample: guest_name is non-null before the update, the
incoming update carries null for it, and handleExtraction sets it back to
null; no correction signal is consulted because the handler never sees the
utterance. -/
theorem extraction_regression_counterexample :
    sampleAlice.guest_name ≠ none ∧
    (handleExtraction sampleAlice sampleNull).guest_name = none := by
  decide

/-- C3 amended: handleExtraction replaces the extracted snapshot wholesale
with the incoming update, so each required field of the new state equals
the update field, and a field regresses to null exactly when the update
carries null for it -- no correction-signal condition exists in the
handler. -/
theorem extraction_replacement_amended (prev data : ExtractedFields) :
    handleExtraction prev data = data ∧
    ((handleExtraction prev data).guest_name = none ↔ data.guest_name = none) ∧
    ((handleExtraction prev data).phone = none ↔ data.phone = none) ∧
    ((handleExtraction prev data).party_size = none ↔ data.party_size = none) ∧
    ((handleExtraction prev data).date_time = none ↔ data.date_time = none) :=
  ⟨rfl, Iff.rfl, Iff.rfl, Iff.rfl, Iff.rfl⟩

/-- C4 counterexample: a fragment whose text is whitespace only (hence
empty after trimming) is not dropped: from the empty transcript it creates
a new entry. -/
theorem blank_fragment_not_dropped_counterexample :
    isBlank (⟨Speaker.user, "   ", "t1"⟩ : TranscriptEntry).text = true ∧
    handleTranscriptStep [] ⟨Speaker.user, "   ", "t1"⟩
      = [⟨Speaker.user, "   ", "t1"⟩] ∧
    handleTranscriptStep [] ⟨Speaker.user, "   ", "t1"⟩ ≠ [] := by
  decide

/-- C4 amended: handleTranscriptStep performs no empty-text check; a
fragment that is empty after trimming follows the ordinary rule -- it is
appended as a new entry when the transcript is empty, and merged into a
same-speaker last entry (whose timestamp it updates) otherwise. -/
theorem blank_fragment_follows_merge_rule (prev : List TranscriptEntry)
    (entry lastE : TranscriptEntry) (h : isBlank entry.text = true) :
    (prev.getLast? = none → handleTranscriptStep prev entry = prev ++ [entry]) ∧
    (prev.getLast? = some lastE → lastE.speaker = entry.speaker →
      (handleTranscriptStep prev entry).getLast?
        = some { lastE with
            text := lastE.text ++ entry.text,
            timestamp := entry.timestamp }) := by
  constructor
  · intro hl
    unfold handleTranscriptStep
    rw [hl]
  · intro hl hsp
    unfold handleTranscriptStep
    rw [hl]
    simp [hsp]

/-- C4 witness: a whitespace-only user fragment merges into the previous
user entry and updates its timestamp. -/
theorem blank_fragment_follows_merge_rule_witness :
    (handleTranscriptStep [⟨Speaker.user, "Hi", "t0"⟩]
        ⟨Speaker.user, "  ", "t1"⟩).getLast?
      = some ⟨Speaker.user, "Hi  ", "t1"⟩ := by
  have h := (blank_fragment_follows_merge_rule [⟨Speaker.user, "Hi", "t0"⟩]
    ⟨Speaker.user, "  ", "t1"⟩ ⟨Speaker.user, "Hi", "t0"⟩ (by decide)).2
    (by decide) (by decide)
  rw [h]
  decide

/-- C5: processing the same extraction snapshot twice in a row leaves the
extracted-fields state identical to processing it once, for every prior
state and every snapshot. -/
theorem handleExtraction_idempotent (s d : ExtractedFields) :
    handleExtraction (handleExtraction s d) d = handleExtraction s d :=
  rfl

/-- C6: with the missing-fields list recomputed from the snapshot, the
confirm action is enabled exactly when that list is empty and the intent
equals reserve; and when enabled, triggering handleConfirm yields the
conversation state complete with all four required fields non-null. -/
theorem confirm_requires_all_fields (e : ExtractedFields)
    (missing : List String) (st : String)
    (h1 : missing = computeMissing e) :
    (canConfirm e missing = true ↔
      (missing = [] ∧ e.intent = some IntentType.reserve)) ∧
    (canConfirm e missing = true →
      handleConfirm st = "complete" ∧ e.guest_name ≠ none ∧ e.phone ≠ none ∧
      e.party_size ≠ none ∧ e.date_time ≠ none) := by
  have hiff : canConfirm e missing = true ↔
      (missing = [] ∧ e.intent = some IntentType.reserve) := by
    simp [canConfirm, List.length_eq_zero]
  refine ⟨hiff, ?_⟩
  intro hc
  have hmiss : missing = [] := (hiff.mp hc).1
  have hcm : computeMissing e = [] := by rw [← h1, hmiss]
  have hall : ∀ f ∈ requiredFields, fieldTruthy e f = true := by
    intro f hf
    by_contra hft
    have hmem : f ∈ computeMissing e := by
      unfold computeMissing
      exact List.mem_filter.mpr ⟨hf, by simp [Bool.eq_false_iff.mpr hft]⟩
    rw [hcm] at hmem
    exact absurd hmem (List.not_mem_nil f)
  refine ⟨rfl, ?_, ?_, ?_, ?_⟩
  · exact truthyStr_ne_none (hall "guest_name" (by decide))
  · exact truthyStr_ne_none (hall "phone" (by decide))
  · exact truthyNum_ne_none (hall "party_size" (by decide))
  · exact truthyStr_ne_none (hall "date_time" (by decide))

/-- C6 witness: on a snapshot with all four required fields set and intent
reserve, the confirm action is enabled, sets the state to complete, and
each required field is indeed non-null. -/
theorem confirm_requires_all_fields_witness :
    handleConfirm "confirming" = "complete" ∧
    sampleComplete.guest_name ≠ none ∧ sampleComplete.phone ≠ none ∧
    sampleComplete.party_size ≠ none ∧ sampleComplete.date_time ≠ none :=
  (confirm_requires_all_fields sampleComplete
    (computeMissing sampleComplete) "confirming" rfl).2 (by decide)

/-- C7: stopRecording is idempotent on the state -- applying it to the
state it produces returns that same state, so a second call in succession
performs no further state change -- and the state it produces has the
processor, audio context, media stream and WebSocket refs null, isConnected
and isRecording false, audioLevel zero, and both speaking flags false.
The animation-frame ref is never nulled by the source, so it keeps the
stale frame id, and the only effect a second call re-runs is the frame
cancellation on that stale id -- never a resource teardown. -/
theorem stopRecording_idempotent (s : AudioStreamState) :
    (stopRecordingEff (stopRecordingEff s).1).1 = (stopRecordingEff s).1 ∧
    (stopRecordingEff (stopRecordingEff s).1).2
      = (if s.animationFrame.isSome then [TeardownAction.cancelFrame] else []) ∧
    (stopRecordingEff s).1.ws = none ∧
    (stopRecordingEff s).1.processor = none ∧
    (stopRecordingEff s).1.audioContext = none ∧
    (stopRecordingEff s).1.mediaStream = none ∧
    (stopRecordingEff s).1.animationFrame = s.animationFrame ∧
    (stopRecordingEff s).1.isConnected = false ∧
    (stopRecordingEff s).1.isRecording = false ∧
    (stopRecordingEff s).1.audioLevel = 0 ∧
    (stopRecordingEff s).1.user_speaking = false ∧
    (stopRecordingEff s).1.agent_speaking = false := by
  refine ⟨rfl, ?_, rfl, rfl, rfl, rfl, rfl, rfl, rfl, rfl, rfl, rfl⟩
  obtain ⟨af, p, ac, ms, w, ic, ir, al, us, ag⟩ := s
  cases af <;> rfl

/-- C8: for every non-empty frame of frequency-bin byte values, each in the
range 0 to 255, the derived audio level -- the mean of the values divided
by 255 -- lies in the closed interval from 0 to 1. -/
theorem audioLevel_normalized (dataArray : List ℕ) (h1 : dataArray ≠ [])
    (h2 : ∀ b ∈ dataArray, b ≤ 255) :
    0 ≤ audioLevelOf dataArray ∧ audioLevelOf dataArray ≤ 1 := by
  have hsum : dataArray.foldl (fun a b => a + b) 0 ≤ 255 * dataArray.length := by
    simpa using foldl_add_le dataArray 0 h2
  unfold audioLevelOf
  constructor
  · positivity
  · rw [div_div]
    apply div_le_one_of_le₀
    · calc ((dataArray.foldl (fun a b => a + b) 0 : ℕ) : ℚ)
          ≤ ((255 * dataArray.length : ℕ) : ℚ) := by exact_mod_cast hsum
        _ = (dataArray.length : ℚ) * 255 := by push_cast; ring
    · positivity

/-- C8 witness: the level of the concrete frame with byte values 0, 255 and
10 lies between 0 and 1. -/
theorem audioLevel_normalized_witness :
    0 ≤ audioLevelOf [0, 255, 10] ∧ audioLevelOf [0, 255, 10] ≤ 1 :=
  audioLevel_normalized [0, 255, 10] (by decide) (by decide)

/-- C9: selecting an availability slot stores the slot and updates only
date_time and area_pref of the extracted snapshot, to the slot time and
area; guest_name, phone, party_size, notes, intent and confirmation_code
are unchanged, for every prior snapshot and every slot. -/
theorem handleSelectSlot_frame (prev : ExtractedFields) (slot : TimeSlot) :
    (handleSelectSlot prev slot).1 = some slot ∧
    (handleSelectSlot prev slot).2.date_time = some slot.time ∧
    (handleSelectSlot prev slot).2.area_pref = some slot.area ∧
    (handleSelectSlot prev slot).2.guest_name = prev.guest_name ∧
    (handleSelectSlot prev slot).2.phone = prev.phone ∧
    (handleSelectSlot prev slot).2.party_size = prev.party_size ∧
    (handleSelectSlot prev slot).2.notes = prev.notes ∧
    (handleSelectSlot prev slot).2.intent = prev.intent ∧
    (handleSelectSlot prev slot).2.confirmation_code = prev.confirmation_code :=
  ⟨rfl, rfl, rfl, rfl, rfl, rfl, rfl, rfl, rfl⟩

/-- C10: every outbound encoded PCM sample lies in the signed 16-bit range,
for every input sample; and every inbound 16-bit sample in that range
decodes to a playback value in the interval from -1 to 1. -/
theorem pcm_sample_ranges (x : ℚ) (s : ℤ)
    (hlo : -32768 ≤ s) (hhi : s ≤ 32767) :
    (-32768 ≤ encodePcmSample x ∧ encodePcmSample x ≤ 32767) ∧
    (-1 ≤ decodePcmSample s ∧ decodePcmSample s ≤ 1) := by
  refine ⟨⟨le_max_left _ _, ?_⟩, ?_, ?_⟩
  · exact max_le (by norm_num) (min_le_left _ _)
  · unfold decodePcmSample
    rw [le_div_iff₀ (by norm_num : (0:ℚ) < 32768)]
    calc (-1 : ℚ) * 32768 = -32768 := by norm_num
      _ ≤ (s : ℚ) := by exact_mod_cast hlo
  · unfold decodePcmSample
    rw [div_le_iff₀ (by norm_num : (0:ℚ) < 32768)]
    calc (s : ℚ) ≤ 32767 := by exact_mod_cast hhi
      _ ≤ 1 * 32768 := by norm_num

/-- C10 witness: the encoded value of the out-of-range input sample 2 stays
within the 16-bit range, and the minimum 16-bit sample decodes into the
unit interval. -/
theorem pcm_sample_ranges_witness :
    ((-32768 : ℚ) ≤ encodePcmSample 2 ∧ encodePcmSample 2 ≤ 32767) ∧
    ((-1 : ℚ) ≤ decodePcmSample (-32768) ∧ decodePcmSample (-32768) ≤ 1) :=
  pcm_sample_ranges 2 (-32768) (by decide) (by decide)

end PersonaPlex
